import Mathlib

/-!
Verification development for the procorg process supervisor.

This file gives a shallow embedding, in Lean, of the execution supervision
core of the repository (src/procorg/manager.py, src/procorg/scheduler.py,
src/procorg/storage.py) and proves properties of it.

Modelling conventions:
- The filesystem of durable artifacts is explicit state.  For one process
  name, the directory data/users/uid/logs/name is a finite association list
  from execution id to the artifact set of that execution; the whole logs
  directory is an association list from process name to such a list.
- A file that may be absent, or present but unreadable as an integer, is
  modelled as Option (Option _): none is an absent file, some none is a file
  whose content fails int parsing, some (some v) is a readable value v.
- The operating system is a set of oracles passed as arguments: whether a
  pid answers signal 0 (alive), the outcome of the psutil terminate or wait
  sequence, the outcome of subprocess.Popen (spawn), and the poll sequence
  observed by the monitor thread.
- datetime.now values are the Timestamp structure below; the strftime call
  that produces execution ids and the isoformat rendering are embedded as
  string builders over decimal digit lists.
- Durations (total_seconds, a Python float) are modelled exactly in integer
  microseconds, which is the full resolution of datetime, so no rounding is
  lost.
-/

/-- Execution status strings used by manager.py
("pending", "running", "completed", "failed", "stopped"). -/
inductive ExecStatus
  | pending
  | running
  | completed
  | failed
  | stopped
deriving DecidableEq, Repr

/-- A wall clock reading, as produced by datetime.now() in the source. -/
structure Timestamp where
  year : Nat
  month : Nat
  day : Nat
  hour : Nat
  minute : Nat
  second : Nat
  micro : Nat
deriving DecidableEq, Repr

/-- Fixed width big endian decimal digit list of n, width w
(the digit list that a zero padded strftime field prints). -/
def padDigits : Nat → Nat → List Nat
  | 0, _ => []
  | w + 1, n => n / 10 ^ w :: padDigits w (n % 10 ^ w)

/-- Zero padded decimal rendering of width w, as a string. -/
def padStr (w n : Nat) : String :=
  ⟨(padDigits w n).map Nat.digitChar⟩

/-- The execution id produced in ProcessExecution.__init__ by
datetime.now().strftime with format YYYYMMDD_HHMMSS_microseconds
(manager.py line 39). -/
def Timestamp.execIdString (t : Timestamp) : String :=
  padStr 4 t.year ++ padStr 2 t.month ++ padStr 2 t.day ++ "_" ++
    padStr 2 t.hour ++ padStr 2 t.minute ++ padStr 2 t.second ++ "_" ++
    padStr 6 t.micro

/-- Field bounds of a datetime value, restricted to four digit years, which
is the regime in which the strftime id encoding is fixed width. -/
def Timestamp.Valid (t : Timestamp) : Prop :=
  1000 ≤ t.year ∧ t.year ≤ 9999 ∧ 1 ≤ t.month ∧ t.month ≤ 12 ∧
    1 ≤ t.day ∧ t.day ≤ 31 ∧ t.hour ≤ 23 ∧ t.minute ≤ 59 ∧
    t.second ≤ 59 ∧ t.micro ≤ 999999

instance (t : Timestamp) : Decidable t.Valid := by
  unfold Timestamp.Valid; infer_instance

/-- Chronological strict order on wall clock readings: lexicographic on
(year, month, day, hour, minute, second, microsecond), which is how
datetime values compare in Python. -/
def Timestamp.chronLt (t1 t2 : Timestamp) : Prop :=
  t1.year < t2.year ∨ (t1.year = t2.year ∧
    (t1.month < t2.month ∨ (t1.month = t2.month ∧
      (t1.day < t2.day ∨ (t1.day = t2.day ∧
        (t1.hour < t2.hour ∨ (t1.hour = t2.hour ∧
          (t1.minute < t2.minute ∨ (t1.minute = t2.minute ∧
            (t1.second < t2.second ∨ (t1.second = t2.second ∧
              t1.micro < t2.micro)))))))))))

instance (t1 t2 : Timestamp) : Decidable (t1.chronLt t2) := by
  unfold Timestamp.chronLt; infer_instance

/-- Weak chronological order, modelling the >= comparison of datetimes in
the scheduler loop. -/
def Timestamp.chronLe (t1 t2 : Timestamp) : Prop :=
  t1.chronLt t2 ∨ t1 = t2

instance (t1 t2 : Timestamp) : Decidable (t1.chronLe t2) := by
  unfold Timestamp.chronLe; infer_instance

/-- True for leap years of the Gregorian calendar, as the datetime module
computes them. -/
def isLeapYear (y : Nat) : Bool :=
  y % 4 == 0 && (y % 100 != 0 || y % 400 == 0)

/-- Number of days of month m in year y (m between 1 and 12). -/
def daysInMonth (y m : Nat) : Nat :=
  if m = 2 then (if isLeapYear y then 29 else 28)
  else if m = 4 ∨ m = 6 ∨ m = 9 ∨ m = 11 then 30
  else 31

/-- Days of year y that precede month m (m between 1 and 12). -/
def daysBeforeMonth (y m : Nat) : Nat :=
  (List.range (m - 1)).foldl (fun acc i => acc + daysInMonth y (i + 1)) 0

/-- Day count of a Gregorian date from a fixed epoch, used to model exact
datetime subtraction. -/
def daysFromCivil (y m d : Nat) : Nat :=
  365 * (y - 1) + ((y - 1) / 4 - (y - 1) / 100 + (y - 1) / 400) +
    daysBeforeMonth y m + (d - 1)

/-- Microsecond count of a wall clock reading from the epoch; datetime
subtraction is exact in these units. -/
def Timestamp.totalMicros (t : Timestamp) : Nat :=
  ((daysFromCivil t.year t.month t.day) * 86400 +
    t.hour * 3600 + t.minute * 60 + t.second) * 1000000 + t.micro

/-- The isoformat rendering of a datetime: 'T' separated, microseconds
printed only when nonzero, as in Python. -/
def Timestamp.isoformat (t : Timestamp) : String :=
  padStr 4 t.year ++ "-" ++ padStr 2 t.month ++ "-" ++ padStr 2 t.day ++
    "T" ++ padStr 2 t.hour ++ ":" ++ padStr 2 t.minute ++ ":" ++
    padStr 2 t.second ++
    (if t.micro = 0 then "" else "." ++ padStr 6 t.micro)

/-- The durable artifact set of one execution id of one process name:
the files <id>.stdout.log, <id>.stderr.log, <id>.pid, <id>.exitcode,
<id>.args under logs/<name>/ (spec section 6; manager.py).  The pid and
exitcode files are Option (Option _): none is file absent, some none is a
file present whose content fails int parsing, some (some v) is value v. -/
structure Artifacts where
  hasStdoutLog : Bool
  hasStderrLog : Bool
  pidFile : Option (Option Nat)
  exitcodeFile : Option (Option Int)
  argsFile : Option (List String)
deriving DecidableEq, Repr

/-- The artifact set with every file absent. -/
def Artifacts.absent : Artifacts :=
  { hasStdoutLog := false, hasStderrLog := false,
    pidFile := none, exitcodeFile := none, argsFile := none }

instance : Inhabited Artifacts := ⟨Artifacts.absent⟩

/-- The logs directory: per process name, the association list from
execution id to its artifact set.  A name that is not a key models a
logs/<name>/ directory that does not exist. -/
def LogsState := List (String × List (String × Artifacts))

instance : Inhabited LogsState := ⟨([] : List (String × List (String × Artifacts)))⟩

/-- Artifact set recorded for (name, id); absent files if the directory or
the entry does not exist. -/
def artifactFor (logs : LogsState) (name id : String) : Artifacts :=
  (((List.lookup name logs).getD []).lookup id).getD Artifacts.absent

/-- Replace (insert if new) the artifact set of (name, id). -/
def setArtifact (logs : LogsState) (name id : String) (a : Artifacts) : LogsState :=
  match logs with
  | [] => [(name, [(id, a)])]
  | (n, entries) :: rest =>
    if n = name then (n, setEntry entries) :: rest
    else (n, entries) :: setArtifact rest name id a
where setEntry : List (String × Artifacts) → List (String × Artifacts)
  | [] => [(id, a)]
  | (i, b) :: es => if i = id then (i, a) :: es else (i, b) :: setEntry es

/-- Apply f to the artifact set of (name, id). -/
def updateArtifact (logs : LogsState) (name id : String)
    (f : Artifacts → Artifacts) : LogsState :=
  setArtifact logs name id (f (artifactFor logs name id))

/-- In memory record of one execution: the mutable attributes of a
ProcessExecution object (manager.py lines 33 to 45).  hasProcess models
whether self.process holds a Popen handle. -/
structure ExecutionRec where
  name : String
  script_path : String
  uid : Nat
  args : List String
  execution_id : String
  hasProcess : Bool
  pid : Option Nat
  start_time : Option Timestamp
  end_time : Option Timestamp
  exit_code : Option Int
  status : ExecStatus
deriving DecidableEq, Repr

/-- ProcessExecution.__init__ (manager.py lines 33 to 45): args may be
omitted (self.args = args or []), the execution id is strftime of now,
status starts as pending. -/
def ProcessExecution.init (name script_path : String) (uid : Nat)
    (args : Option (List String)) (now : Timestamp) : ExecutionRec :=
  { name := name, script_path := script_path, uid := uid,
    args := args.getD [],
    execution_id := now.execIdString,
    hasProcess := false, pid := none,
    start_time := none, end_time := none, exit_code := none,
    status := ExecStatus.pending }

/-- System identity calls performed by the preexec closure. -/
inductive SysCall
  | setgid (gid : Nat)
  | setuid (uid : Nat)
deriving DecidableEq, Repr

/-- demote (manager.py lines 14 to 27): the returned closure set_ids runs
os.setgid(gid) and then os.setuid(uid); the value is the ordered list of
system calls the closure performs. -/
def demote (uid gid : Nat) : List SysCall :=
  [SysCall.setgid gid, SysCall.setuid uid]

/-- Preparation of preexec_fn in ProcessExecution.start (manager.py lines
56 to 66): only when running as root (euid = 0); pwGid models
pwd.getpwuid, none models its KeyError, after which the child runs with no
demotion step. -/
def preparePreexecFn (euid uid : Nat) (pwGid : Nat → Option Nat) :
    Option (List SysCall) :=
  if euid = 0 then
    match pwGid uid with
    | some gid => some (demote uid gid)
    | none => none
  else none

/-- ProcessExecution.start (manager.py lines 47 to 105).  spawn models the
outcome of subprocess.Popen: some pid is a successful launch, none models
Popen raising.  Both log files are opened (created) before Popen runs, so
they exist in either case.  On success the pid file and, when args is
nonempty, the args file are written; on failure the status becomes failed
with exit code -1 and start returns false.  The returned artifact set is
the durable state of this execution id after start returns. -/
def ProcessExecution.start (e : ExecutionRec) (spawn : Option Nat)
    (now : Timestamp) : Bool × ExecutionRec × Artifacts :=
  match spawn with
  | some pid =>
    (true,
      { e with hasProcess := true, pid := some pid,
               start_time := some now, status := ExecStatus.running },
      { hasStdoutLog := true, hasStderrLog := true,
        pidFile := some (some pid), exitcodeFile := none,
        argsFile := if e.args.isEmpty then none else some e.args })
  | none =>
    (false,
      { e with status := ExecStatus.failed, exit_code := some (-1) },
      { hasStdoutLog := true, hasStderrLog := true,
        pidFile := none, exitcodeFile := none, argsFile := none })

/-- The poll loop of ProcessExecution._monitor (manager.py lines 115 to
119): polls k is the value of self.process.poll() at iteration k; the loop
ends at the first iteration whose poll is not None.  fuel bounds how many
iterations we observe; none means the child had not exited yet within that
many polls, in which case the monitor body has not run. -/
def pollLoop (polls : Nat → Option Int) : Nat → Nat → Option Int
  | 0, _ => none
  | fuel + 1, k =>
    match polls k with
    | some c => some c
    | none => pollLoop polls fuel (k + 1)

/-- Result of the monitor body: the mutated execution record, the durable
artifacts of its execution id, and whether each log handle was closed. -/
structure MonitorResult where
  exec : ExecutionRec
  arts : Artifacts
  stdoutClosed : Bool
  stderrClosed : Bool
deriving DecidableEq, Repr

/-- ProcessExecution._monitor (manager.py lines 107 to 142) after the
child exits: records the end time, sets completed when the exit code is
zero and failed otherwise, closes both log handles, persists the exit code
to the exitcode file and deletes the pid file.  Returns none while the
child has not exited within fuel polls (the loop is still running and none
of the finally block has executed). -/
def ProcessExecution.monitor (e : ExecutionRec) (a : Artifacts)
    (polls : Nat → Option Int) (fuel : Nat) (now : Timestamp) :
    Option MonitorResult :=
  match pollLoop polls fuel 0 with
  | none => none
  | some c =>
    some
      { exec := { e with exit_code := some c, end_time := some now,
                         status := if c = 0 then ExecStatus.completed
                                   else ExecStatus.failed },
        arts := { a with exitcodeFile := some (some c), pidFile := none },
        stdoutClosed := true, stderrClosed := true }

/-- Outcome of the psutil terminate and wait sequence against a pid. -/
inductive PsOutcome
  | graceful
  | noSuchProcess
  | timeoutThenAlive
  | otherError
deriving DecidableEq, Repr

/-- ProcessExecution.stop (manager.py lines 144 to 164): only acts when a
Popen handle exists and the status is running.  A graceful terminate sets
stopped with an end time; psutil.NoSuchProcess is success (stopped, true);
any other exception, including psutil.TimeoutExpired from the bounded
wait, falls into the generic handler and returns false with the record
unchanged. -/
def ProcessExecution.stop (e : ExecutionRec) (ps : Nat → PsOutcome)
    (now : Timestamp) : Bool × ExecutionRec :=
  if e.hasProcess ∧ e.status = ExecStatus.running then
    match e.pid with
    | none => (false, e)
    | some p =>
      match ps p with
      | PsOutcome.graceful =>
        (true, { e with status := ExecStatus.stopped, end_time := some now })
      | PsOutcome.noSuchProcess =>
        (true, { e with status := ExecStatus.stopped })
      | PsOutcome.timeoutThenAlive => (false, e)
      | PsOutcome.otherError => (false, e)
  else (false, e)

/-- ProcessExecution.get_info (manager.py lines 166 to 178), the in memory
status dictionary.  args is Option valued at the record level because the
filesystem reconstruction in get_process_status builds a dictionary with
no args key at all; here the key is always present (some). -/
structure ExecInfo where
  execution_id : String
  name : String
  pid : Option Nat
  status : ExecStatus
  args : Option (List String)
  start_time : Option String
  end_time : Option String
  exit_code : Option Int
  duration : Option Int
deriving DecidableEq, Repr

/-- ProcessExecution.get_info (manager.py lines 166 to 178).  Durations
are exact microseconds (see the header note on floats). -/
def ProcessExecution.get_info (e : ExecutionRec) : ExecInfo :=
  { execution_id := e.execution_id, name := e.name, pid := e.pid,
    status := e.status, args := some e.args,
    start_time := e.start_time.map Timestamp.isoformat,
    end_time := e.end_time.map Timestamp.isoformat,
    exit_code := e.exit_code,
    duration :=
      match e.end_time, e.start_time with
      | some en, some st =>
        some ((en.totalMicros : Int) - (st.totalMicros : Int))
      | _, _ => none }

/-- A registry entry (storage.py register_process, lines 49 to 64): the
fields the core reads.  created_at is the isoformat string stamped at
registration. -/
structure ProcessDef where
  name : String
  script_path : String
  cron_expr : Option String
  description : String
  created_at : String
  enabled : Bool
  owner_uid : Nat
deriving DecidableEq, Repr

/-- The registry file content: dictionary from process name to its
definition, as storage.get_process reads it. -/
def Registry := List (String × ProcessDef)

/-- The in memory execution histories of one ProcessManager instance:
self.executions, a dictionary from name to the ordered list of
ProcessExecution records this instance has observed. -/
def ExecHistories := List (String × List ExecutionRec)

/-- ProcessManager.get_running_execution (manager.py lines 219 to 226):
walk this instance history for name in reverse and return the first record
whose status is running. -/
def ProcessManager.get_running_execution (executions : ExecHistories)
    (name : String) : Option ExecutionRec :=
  match List.lookup name executions with
  | some l => l.reverse.find? (fun e => e.status == ExecStatus.running)
  | none => none

/-- Append a freshly constructed execution to the history of name,
creating the entry when absent (manager.py lines 210 to 213). -/
def appendExecution (executions : ExecHistories) (name : String)
    (e : ExecutionRec) : ExecHistories :=
  match executions with
  | [] => [(name, [e])]
  | (n, l) :: rest =>
    if n = name then (n, l ++ [e]) :: rest
    else (n, l) :: appendExecution rest name e

/-- ProcessManager.run_process (manager.py lines 190 to 217): reject with
no state change when the definition is missing, disabled, or its script
path does not exist (scriptExists models os.path.exists); otherwise
construct the execution, append it to the history, start it, and return
the record as handle exactly when start succeeded.  The failed record
stays in the appended history. -/
def ProcessManager.run_process (registry : Registry)
    (scriptExists : String → Bool) (uid : Nat) (spawn : Option Nat)
    (now : Timestamp) (executions : ExecHistories) (logs : LogsState)
    (name : String) (args : Option (List String)) :
    Option ExecutionRec × ExecHistories × LogsState :=
  match List.lookup name registry with
  | none => (none, executions, logs)
  | some pd =>
    if !pd.enabled then (none, executions, logs)
    else if !scriptExists pd.script_path then (none, executions, logs)
    else
      let e := ProcessExecution.init name pd.script_path uid args now
      let r := ProcessExecution.start e spawn now
      let executions1 := appendExecution executions name r.2.1
      let logs1 := setArtifact logs name e.execution_id r.2.2
      (if r.1 then some r.2.1 else none, executions1, logs1)

/-- Lexicographic strict order on strings by code point, which is how
Python compares the execution id strings in list.sort. -/
def strLt (s t : String) : Prop :=
  List.Lex (· < ·) s.toList t.toList

instance (s t : String) : Decidable (strLt s t) :=
  List.Lex.decidableRel _ _ _

/-- Lexicographic weak order on strings by code point. -/
def strLe (s t : String) : Prop :=
  strLt s t ∨ s = t

/-- One step of the running maximum over execution ids. -/
def latestStep (acc : Option String) (i : String) : Option String :=
  match acc with
  | none => some i
  | some m => if strLt m i then some i else some m

/-- ProcessManager._get_latest_execution_id helper: the running maximum of
a list of ids, modelling sorted(ids, reverse=True)[0], which is the
lexicographic maximum of the stem names. -/
def latestOf (ids : List String) : Option String :=
  ids.foldl latestStep none

/-- ProcessManager._get_latest_execution_id (manager.py lines 418 to 433):
none when logs/<name> does not exist or holds no .stdout.log file, else
the lexicographically greatest id that owns a stdout log. -/
def ProcessManager.get_latest_execution_id (logs : LogsState)
    (name : String) : Option String :=
  match List.lookup name logs with
  | none => none
  | some entries =>
    latestOf ((entries.filter (fun p => p.2.hasStdoutLog)).map (fun p => p.1))

/-- ProcessManager.stop_process (manager.py lines 228 to 298).  Prefers
the in memory running execution; otherwise falls back to the latest
durable execution id and its pid file.  ps is the psutil outcome oracle
per pid.  Returns the boolean result together with the durable state after
the call; the mutation of the in memory record on the first path is that
of ProcessExecution.stop.  An unreadable pid file (int raising ValueError)
returns false; NoSuchProcess and TimeoutExpired on the durable path both
return true after deleting the pid file; a graceful stop also writes the
SIGTERM sentinel -15 to the exitcode file. -/
def ProcessManager.stop_process (executions : ExecHistories)
    (logs : LogsState) (ps : Nat → PsOutcome) (now : Timestamp)
    (name : String) : Bool × LogsState :=
  match ProcessManager.get_running_execution executions name with
  | some e => ((ProcessExecution.stop e ps now).1, logs)
  | none =>
    match ProcessManager.get_latest_execution_id logs name with
    | none => (false, logs)
    | some id =>
      match (artifactFor logs name id).pidFile with
      | none => (false, logs)
      | some none => (false, logs)
      | some (some pid) =>
        match ps pid with
        | PsOutcome.graceful =>
          (true, updateArtifact logs name id (fun a =>
            { a with pidFile := none, exitcodeFile := some (some (-15)) }))
        | PsOutcome.noSuchProcess =>
          (true, updateArtifact logs name id (fun a => { a with pidFile := none }))
        | PsOutcome.timeoutThenAlive =>
          (true, updateArtifact logs name id (fun a => { a with pidFile := none }))
        | PsOutcome.otherError => (false, logs)

/-- Substring by character positions, as a Python slice s[a:b]. -/
def strSlice (s : String) (a b : Nat) : String :=
  ⟨(s.toList.drop a).take (b - a)⟩

/-- Numeric value of a decimal digit character list. -/
def digitsVal (l : List Char) : Nat :=
  l.foldl (fun acc c => 10 * acc + (c.toNat - 48)) 0

/-- Modelled from the stdlib: one numeric field of datetime.strptime, which
accepts one to maxw digits and checks the range lo to hi. -/
def parseField (s : String) (maxw lo hi : Nat) : Option Nat :=
  if 1 ≤ s.length ∧ s.length ≤ maxw ∧ s.toList.all Char.isDigit then
    let v := digitsVal s.toList
    if lo ≤ v ∧ v ≤ hi then some v else none
  else none

/-- The start time reconstruction of get_process_status (manager.py lines
340 to 348): slice the date and time parts out of the execution id, run
strptime with format %Y-%m-%d %H:%M:%S (modelled from the stdlib: per
field digit count and range checks plus the day of month check), and
render isoformat; any IndexError or ValueError gives none. -/
def parseStartTime (execution_id : String) : Option String :=
  match execution_id.splitOn "_" with
  | date_part :: time_part :: _ =>
    match parseField (strSlice date_part 0 4) 4 1 9999,
        parseField (strSlice date_part 4 6) 2 1 12,
        parseField (strSlice date_part 6 8) 2 1 31,
        parseField (strSlice time_part 0 2) 2 0 23,
        parseField (strSlice time_part 2 4) 2 0 59,
        parseField (strSlice time_part 4 6) 2 0 59 with
    | some y, some mo, some d, some h, some mi, some s =>
      if d ≤ daysInMonth y mo then
        some (Timestamp.isoformat ⟨y, mo, d, h, mi, s, 0⟩)
      else none
    | _, _, _, _, _, _ => none
  | _ => none

/-- The record returned by ProcessManager.get_process_status (manager.py
lines 372 to 377). -/
structure StatusRecord where
  name : String
  latest_execution : Option ExecInfo
  total_executions : Nat
  running : Bool
deriving DecidableEq, Repr

/-- ProcessManager.get_process_status (manager.py lines 300 to 377).  The
in memory history is trusted when nonempty; otherwise the durable
artifacts are reconciled: latest id from the stdout logs, liveness of the
recorded pid via signal 0 (alive), status completed by default, exit code
from the exitcode file when readable.  The registry argument is the
storage the manager holds; the function never reads it. -/
def ProcessManager.get_process_status (registry : Registry)
    (executions : ExecHistories) (logs : LogsState) (alive : Nat → Bool)
    (name : String) : StatusRecord :=
  let execs := (List.lookup name executions).getD []
  let is_running_in_memory := execs.any (fun e => e.status == ExecStatus.running)
  match execs.getLast? with
  | some e =>
    { name := name, latest_execution := some (ProcessExecution.get_info e),
      total_executions := execs.length, running := is_running_in_memory }
  | none =>
    match ProcessManager.get_latest_execution_id logs name with
    | none =>
      { name := name, latest_execution := none,
        total_executions := execs.length, running := is_running_in_memory }
    | some id =>
      let a := artifactFor logs name id
      let pr : Bool × ExecStatus :=
        match a.pidFile with
        | some (some pid) =>
          if alive pid then (true, ExecStatus.running)
          else (false, ExecStatus.completed)
        | some none => (false, ExecStatus.completed)
        | none => (false, ExecStatus.completed)
      let exit_code : Option Int :=
        match a.exitcodeFile with
        | some (some c) => some c
        | some none => none
        | none => none
      { name := name,
        latest_execution := some
          { execution_id := id, name := name, pid := none,
            status := if pr.1 then pr.2 else ExecStatus.completed,
            args := none, start_time := parseStartTime id,
            end_time := none, exit_code := exit_code, duration := none },
        total_executions := execs.length, running := pr.1 }

/-- Insert or replace the cached next run time of a name
(self.next_runs[name] = value). -/
def insertTime (st : List (String × Timestamp)) (name : String)
    (t : Timestamp) : List (String × Timestamp) :=
  match st with
  | [] => [(name, t)]
  | (n, v) :: rest =>
    if n = name then (n, t) :: rest
    else (n, v) :: insertTime rest name t

/-- The body of the per process iteration of Scheduler._check_and_run
(scheduler.py lines 53 to 82).  cronNext expr now models
croniter(expr, now).get_next(datetime); none models croniter raising on a
malformed expression, which the per process try block catches.  The
accumulator carries the names for which manager.run_process was invoked
this iteration, and the next_runs cache.  A process is skipped when its
cron expression is missing or empty, when it is disabled, and when this
instance already holds a running execution for it.  Note that when the
cached next run time is due, run_process is invoked before the next run
time is recomputed, so a recompute failure leaves the cache untouched but
the run already happened. -/
def Scheduler.checkStep (executions : ExecHistories)
    (cronNext : String → Timestamp → Option Timestamp) (now : Timestamp)
    (acc : List String × List (String × Timestamp)) (p : ProcessDef) :
    List String × List (String × Timestamp) :=
  match p.cron_expr with
  | none => acc
  | some expr =>
    if expr = "" then acc
    else if !p.enabled then acc
    else if (ProcessManager.get_running_execution executions p.name).isSome then acc
    else
      match List.lookup p.name acc.2 with
      | none =>
        match cronNext expr now with
        | none => acc
        | some nxt =>
          let st1 := insertTime acc.2 p.name nxt
          if nxt.chronLe now then
            match cronNext expr now with
            | none => (acc.1 ++ [p.name], st1)
            | some nxt2 => (acc.1 ++ [p.name], insertTime st1 p.name nxt2)
          else (acc.1, st1)
      | some nxt =>
        if nxt.chronLe now then
          match cronNext expr now with
          | none => (acc.1 ++ [p.name], acc.2)
          | some nxt2 => (acc.1 ++ [p.name], insertTime acc.2 p.name nxt2)
        else (acc.1, acc.2)

/-- Scheduler._check_and_run (scheduler.py lines 49 to 82): one pass over
storage.list_processes(), threading the next_runs cache, collecting the
names that were handed to manager.run_process. -/
def Scheduler.check_and_run (executions : ExecHistories)
    (cronNext : String → Timestamp → Option Timestamp) (now : Timestamp)
    (procs : List ProcessDef) (st : List (String × Timestamp)) :
    List String × List (String × Timestamp) :=
  procs.foldl (Scheduler.checkStep executions cronNext now) ([], st)

/-- One operation applied to an in memory execution record, with the
oracle data it consumes: the manager calling start, the monitor thread
body, or a stop request. -/
inductive ExecOp where
  | opStart (spawn : Option Nat) (now : Timestamp)
  | opMonitor (polls : Nat → Option Int) (fuel : Nat) (now : Timestamp)
  | opStop (ps : Nat → PsOutcome) (now : Timestamp)

/-- Effect of one operation on the in memory record.  A monitor whose
child has not exited yet within fuel polls leaves the record unchanged. -/
def applyOp (e : ExecutionRec) : ExecOp → ExecutionRec
  | ExecOp.opStart spawn now => (ProcessExecution.start e spawn now).2.1
  | ExecOp.opMonitor polls fuel now =>
    match ProcessExecution.monitor e Artifacts.absent polls fuel now with
    | some r => r.exec
    | none => e
  | ExecOp.opStop ps now => (ProcessExecution.stop e ps now).2

/-- Status values visited by a record under a sequence of operations,
starting state included. -/
def execStatusTrace (e : ExecutionRec) : List ExecOp → List ExecStatus
  | [] => [e.status]
  | op :: ops => e.status :: execStatusTrace (applyOp e op) ops

/-- The call discipline of the source: the manager calls start exactly
once on a freshly constructed (pending) record; the monitor thread exists
only for a successfully started execution and its body runs once, when
the direct child exits, at which point the record is still running, or
already stopped when an explicit in memory stop intervened before a poll
observed the exit (manager.py line 122 overwrites the status
unconditionally, with no check of the current status).  stop may be
requested at any time. -/
def disciplined (e : ExecutionRec) : List ExecOp → Bool
  | [] => true
  | op :: ops =>
    (match op with
     | ExecOp.opStart _ _ => e.status == ExecStatus.pending
     | ExecOp.opMonitor _ _ _ =>
       e.status == ExecStatus.running || e.status == ExecStatus.stopped
     | ExecOp.opStop _ _ => true) && disciplined (applyOp e op) ops

/-- The amended status transition graph: pending to running, pending to
failed (a failed spawn), running to each terminal status, and stopped to
completed or failed, because the monitor body runs when the child exits
even after an explicit stop and overwrites the status from the exit
code. -/
def statusEdge (s sNext : ExecStatus) : Prop :=
  (s = ExecStatus.pending ∧ sNext = ExecStatus.running) ∨
  (s = ExecStatus.pending ∧ sNext = ExecStatus.failed) ∨
  (s = ExecStatus.running ∧
    (sNext = ExecStatus.completed ∨ sNext = ExecStatus.failed ∨
      sNext = ExecStatus.stopped)) ∨
  (s = ExecStatus.stopped ∧
    (sNext = ExecStatus.completed ∨ sNext = ExecStatus.failed))

/-- Whether an operation is the monitoring task or an explicit stop. -/
def isMonitorOrStop : ExecOp → Prop
  | ExecOp.opStart _ _ => False
  | ExecOp.opMonitor _ _ _ => True
  | ExecOp.opStop _ _ => True

/-- Along a run of operations: every step either leaves the status alone
or follows the amended transition graph, and only the monitoring task or
a stop ever moves the status away from running. -/
def transOk (e : ExecutionRec) : List ExecOp → Prop
  | [] => True
  | op :: ops =>
    ((applyOp e op).status = e.status ∨ statusEdge e.status (applyOp e op).status) ∧
    (e.status = ExecStatus.running → (applyOp e op).status ≠ ExecStatus.running →
      isMonitorOrStop op) ∧
    transOk (applyOp e op) ops

/-- A terminal status in the sense of the spec. -/
def isTerminal (s : ExecStatus) : Bool :=
  s == ExecStatus.completed || s == ExecStatus.failed || s == ExecStatus.stopped

/-- The execution ids that own a stdout log under logs/<name>/, the set
_get_latest_execution_id scans. -/
def stdoutIds (logs : LogsState) (name : String) : List String :=
  (((List.lookup name logs).getD []).filter (fun p => p.2.hasStdoutLog)).map
    (fun p => p.1)

/-- A concrete wall clock reading used by witnesses. -/
def t0 : Timestamp := ⟨2023, 11, 21, 14, 30, 25, 123456⟩

/-- A later concrete wall clock reading used by witnesses. -/
def t1 : Timestamp := ⟨2023, 11, 21, 14, 30, 26, 3⟩

/-- A concrete registry entry used by witnesses. -/
def pdJob : ProcessDef :=
  { name := "job", script_path := "/opt/job.sh", cron_expr := none,
    description := "", created_at := "2023-11-20T09:00:00", enabled := true,
    owner_uid := 1000 }

/-- A concrete execution record used by witnesses: freshly constructed,
status pending. -/
def eJob : ExecutionRec :=
  ProcessExecution.init "job" "/opt/job.sh" 1000 none t0

/-- A concrete poll sequence used by witnesses: the child exits with code
zero at the third poll. -/
def pollsW : Nat → Option Int :=
  fun k => if k = 2 then some 0 else none

/-- A concrete registry used by witnesses. -/
def regJob : Registry := [("job", pdJob)]

/-- A concrete run used for the args round trip scenario of the spec:
run("job", args=["--fast"]) with a successful spawn as pid 4242 at t0. -/
def runJob : Option ExecutionRec × ExecHistories × LogsState :=
  ProcessManager.run_process regJob (fun _ => true) 1000 (some 4242) t0
    [] [] "job" (some ["--fast"])

/-- An execution id older than the ones produced at t0, used by the C1
scenario. -/
def idOld : String := "20231120_090000_000001"

/-- A concrete logs directory with two finished or running executions of
the job: an old completed one and the latest one still holding a pid
file. -/
def logsW : LogsState :=
  [("job",
    [(idOld,
      { hasStdoutLog := true, hasStderrLog := true, pidFile := none,
        exitcodeFile := some (some 0), argsFile := none }),
     (Timestamp.execIdString t0,
      { hasStdoutLog := true, hasStderrLog := true,
        pidFile := some (some 4242), exitcodeFile := none,
        argsFile := none })])]

/-! Theorems.  First the claim theorems that need no list machinery, then
the shared lemmas about list folds and digit strings, then the remaining
claims. -/

/-- Claim C7: whenever the launcher runs with elevated privilege and
prepares a privilege demotion step for the child, that step sets the
target group identity strictly before the target user identity; the two
operations are never performed in the reverse order. -/
theorem C7_demotion_group_before_user (euid uid : Nat)
    (pwGid : Nat → Option Nat) (acts : List SysCall)
    (h : preparePreexecFn euid uid pwGid = some acts) :
    (∃ gid, pwGid uid = some gid ∧ SysCall.setgid gid ∈ acts) ∧
      SysCall.setuid uid ∈ acts ∧
      ∀ (i j g u : Nat), acts[i]? = some (SysCall.setgid g) →
        acts[j]? = some (SysCall.setuid u) → i < j := by
  unfold preparePreexecFn at h
  split at h
  · cases hg : pwGid uid with
    | none => rw [hg] at h; cases h
    | some gid =>
      rw [hg] at h
      cases h
      refine ⟨⟨gid, rfl, ?_⟩, ?_, ?_⟩
      · simp [demote]
      · simp [demote]
      · intro i j g u hi hj
        match i, hi with
        | 0, _ =>
          match j, hj with
          | 0, hj => simp [demote] at hj
          | 1, _ => omega
          | n + 2, hj => simp [demote] at hj
        | 1, hi => simp [demote] at hi
        | n + 2, hi => simp [demote] at hi
  · cases h

/-- Witness for C7 at euid 0, uid 1000, a pwd table answering gid 1000. -/
theorem C7_witness :
    (∃ gid, (fun _ : Nat => some 1000) 1000 = some gid ∧
        SysCall.setgid gid ∈ demote 1000 1000) ∧
      SysCall.setuid 1000 ∈ demote 1000 1000 ∧
      ∀ (i j g u : Nat), (demote 1000 1000)[i]? = some (SysCall.setgid g) →
        (demote 1000 1000)[j]? = some (SysCall.setuid u) → i < j :=
  C7_demotion_group_before_user 0 1000 (fun _ => some 1000)
    (demote 1000 1000) rfl

/-- Claim C5: for every monitored execution whose direct child exits with
exit code c, the monitoring task records an end time, sets status to
completed when c is zero and failed otherwise, persists c to the exitcode
file, closes both log handles, and deletes the pid file. -/
theorem C5_monitor_completion (e : ExecutionRec) (a : Artifacts)
    (polls : Nat → Option Int) (fuel : Nat) (now : Timestamp)
    (r : MonitorResult)
    (h : ProcessExecution.monitor e a polls fuel now = some r) :
    ∃ c, pollLoop polls fuel 0 = some c ∧
      r.exec.end_time = some now ∧
      r.exec.status =
        (if c = 0 then ExecStatus.completed else ExecStatus.failed) ∧
      r.exec.exit_code = some c ∧
      r.arts.exitcodeFile = some (some c) ∧
      r.arts.pidFile = none ∧
      r.stdoutClosed = true ∧ r.stderrClosed = true := by
  unfold ProcessExecution.monitor at h
  cases hp : pollLoop polls fuel 0 with
  | none => rw [hp] at h; cases h
  | some c =>
    rw [hp] at h
    cases h
    exact ⟨c, rfl, rfl, rfl, rfl, rfl, rfl, rfl, rfl⟩

/-- Witness for C5: the child of eJob exits with code 0 at the third
poll. -/
theorem C5_witness :
    ∃ c, pollLoop pollsW 5 0 = some c ∧
      (MonitorResult.mk
          { eJob with exit_code := some 0, end_time := some t1,
                      status := ExecStatus.completed }
          { Artifacts.absent with exitcodeFile := some (some 0),
                                  pidFile := none }
          true true).exec.end_time = some t1 ∧
      (MonitorResult.mk
          { eJob with exit_code := some 0, end_time := some t1,
                      status := ExecStatus.completed }
          { Artifacts.absent with exitcodeFile := some (some 0),
                                  pidFile := none }
          true true).exec.status =
        (if c = 0 then ExecStatus.completed else ExecStatus.failed) ∧
      (MonitorResult.mk
          { eJob with exit_code := some 0, end_time := some t1,
                      status := ExecStatus.completed }
          { Artifacts.absent with exitcodeFile := some (some 0),
                                  pidFile := none }
          true true).exec.exit_code = some c ∧
      (MonitorResult.mk
          { eJob with exit_code := some 0, end_time := some t1,
                      status := ExecStatus.completed }
          { Artifacts.absent with exitcodeFile := some (some 0),
                                  pidFile := none }
          true true).arts.exitcodeFile = some (some c) ∧
      (MonitorResult.mk
          { eJob with exit_code := some 0, end_time := some t1,
                      status := ExecStatus.completed }
          { Artifacts.absent with exitcodeFile := some (some 0),
                                  pidFile := none }
          true true).arts.pidFile = none ∧
      (MonitorResult.mk
          { eJob with exit_code := some 0, end_time := some t1,
                      status := ExecStatus.completed }
          { Artifacts.absent with exitcodeFile := some (some 0),
                                  pidFile := none }
          true true).stdoutClosed = true ∧
      (MonitorResult.mk
          { eJob with exit_code := some 0, end_time := some t1,
                      status := ExecStatus.completed }
          { Artifacts.absent with exitcodeFile := some (some 0),
                                  pidFile := none }
          true true).stderrClosed = true :=
  C5_monitor_completion eJob Artifacts.absent pollsW 5 t1 _ rfl

/-- Claim C10: for every name, including names never registered,
get_process_status never consults the registry (the result is invariant
under swapping the registry out), and with empty in memory history and no
durable artifacts for the name it returns a well formed record with no
latest execution, zero total executions and running false.  Totality of
the embedding models the absence of exceptions. -/
theorem C10_status_without_artifacts (reg reg' : Registry)
    (executions : ExecHistories) (logs : LogsState) (alive : Nat → Bool)
    (name : String)
    (hmem : (List.lookup name executions).getD [] = [])
    (hfs : (List.lookup name logs).getD [] = []) :
    ProcessManager.get_process_status reg executions logs alive name =
      { name := name, latest_execution := none, total_executions := 0,
        running := false } ∧
    ProcessManager.get_process_status reg executions logs alive name =
      ProcessManager.get_process_status reg' executions logs alive name := by
  constructor
  · unfold ProcessManager.get_process_status
    rw [hmem]
    unfold ProcessManager.get_latest_execution_id
    cases hl : List.lookup name logs with
    | none => simp [latestOf]
    | some l =>
      have : l = [] := by rw [hl] at hfs; exact hfs
      subst this
      simp [latestOf]
  · rfl

/-- Witness for C10 at an unregistered name with empty state. -/
theorem C10_witness :
    ProcessManager.get_process_status regJob [] [] (fun _ => false)
        "never-registered" =
      { name := "never-registered", latest_execution := none,
        total_executions := 0, running := false } ∧
    ProcessManager.get_process_status regJob [] [] (fun _ => false)
        "never-registered" =
      ProcessManager.get_process_status [] [] [] (fun _ => false)
        "never-registered" :=
  C10_status_without_artifacts regJob [] [] [] (fun _ => false)
    "never-registered" rfl rfl

/-- Appending an execution to the history of name makes it the last entry
of that history. -/
theorem appendExecution_lookup (executions : ExecHistories) (name : String)
    (e : ExecutionRec) :
    List.lookup name (appendExecution executions name e) =
      some ((List.lookup name executions).getD [] ++ [e]) := by
  induction executions with
  | nil => simp [appendExecution, List.lookup]
  | cons p rest ih =>
    obtain ⟨n, l⟩ := p
    unfold appendExecution
    by_cases hn : n = name
    · subst hn
      simp [List.lookup]
    · simp only [if_neg hn, List.lookup]
      have : (name == n) = false := by
        simp [beq_iff_eq]
        exact fun h => hn h.symm
      rw [this]
      exact ih

/-- Claim C6: run_process performs no execution and no side effect when
the definition is missing, disabled, or its script path does not exist;
when the spawn itself fails, the execution is recorded at the end of the
history with status failed and exit code -1 and the caller receives no
handle. -/
theorem C6_run_process_rejection (registry : Registry)
    (scriptExists : String → Bool) (uid : Nat) (now : Timestamp)
    (executions : ExecHistories) (logs : LogsState) (name : String)
    (args : Option (List String)) :
    (List.lookup name registry = none →
      ∀ spawn, ProcessManager.run_process registry scriptExists uid spawn
        now executions logs name args = (none, executions, logs)) ∧
    (∀ pd, List.lookup name registry = some pd → pd.enabled = false →
      ∀ spawn, ProcessManager.run_process registry scriptExists uid spawn
        now executions logs name args = (none, executions, logs)) ∧
    (∀ pd, List.lookup name registry = some pd → pd.enabled = true →
      scriptExists pd.script_path = false →
      ∀ spawn, ProcessManager.run_process registry scriptExists uid spawn
        now executions logs name args = (none, executions, logs)) ∧
    (∀ pd, List.lookup name registry = some pd → pd.enabled = true →
      scriptExists pd.script_path = true →
      (ProcessManager.run_process registry scriptExists uid none now
          executions logs name args).1 = none ∧
      ∃ e, (List.lookup name (ProcessManager.run_process registry
              scriptExists uid none now executions logs name args).2.1).getD []
          = (List.lookup name executions).getD [] ++ [e] ∧
        e.status = ExecStatus.failed ∧ e.exit_code = some (-1)) := by
  refine ⟨?_, ?_, ?_, ?_⟩
  · intro hnone spawn
    unfold ProcessManager.run_process
    rw [hnone]
  · intro pd hpd hdis spawn
    unfold ProcessManager.run_process
    rw [hpd]
    simp [hdis]
  · intro pd hpd hen hscript spawn
    unfold ProcessManager.run_process
    rw [hpd]
    simp [hen, hscript]
  · intro pd hpd hen hscript
    unfold ProcessManager.run_process
    rw [hpd]
    simp only [hen, hscript, Bool.not_true, Bool.not_false, if_false,
      ProcessExecution.start, Bool.false_eq_true, ite_false]
    refine ⟨trivial, ?_⟩
    refine ⟨{ ProcessExecution.init name pd.script_path uid args now with
              status := ExecStatus.failed, exit_code := some (-1) },
      ?_, rfl, rfl⟩
    rw [appendExecution_lookup]
    simp

/-- Witness for C6: a registered, enabled job whose spawn fails. -/
theorem C6_witness :
    (ProcessManager.run_process regJob (fun _ => true) 1000 none t0 [] []
        "job" none).1 = none ∧
    ∃ e, (List.lookup "job" (ProcessManager.run_process regJob
            (fun _ => true) 1000 none t0 [] [] "job" none).2.1).getD []
        = (List.lookup "job" ([] : ExecHistories)).getD [] ++ [e] ∧
      e.status = ExecStatus.failed ∧ e.exit_code = some (-1) :=
  (C6_run_process_rejection regJob (fun _ => true) 1000 t0 [] [] "job"
      none).2.2.2 pdJob (by decide) rfl rfl

/-- Claim C4: stop_process returns false when the process has no running
execution (no in memory running record and no durable pid file for its
latest execution id), and returns true when a pid file exists but the
recorded pid no longer answers (already exited is success, not an error);
the same already exited tolerance holds on the in memory path. -/
theorem C4_stop_semantics (executions : ExecHistories) (logs : LogsState)
    (ps : Nat → PsOutcome) (now : Timestamp) (name : String) :
    (ProcessManager.get_running_execution executions name = none →
      (∀ id, ProcessManager.get_latest_execution_id logs name = some id →
        (artifactFor logs name id).pidFile = none) →
      (ProcessManager.stop_process executions logs ps now name).1 = false) ∧
    (∀ id pid, ProcessManager.get_running_execution executions name = none →
      ProcessManager.get_latest_execution_id logs name = some id →
      (artifactFor logs name id).pidFile = some (some pid) →
      ps pid = PsOutcome.noSuchProcess →
      (ProcessManager.stop_process executions logs ps now name).1 = true) ∧
    (∀ e pid, ProcessManager.get_running_execution executions name = some e →
      e.hasProcess = true → e.pid = some pid →
      ps pid = PsOutcome.noSuchProcess →
      (ProcessManager.stop_process executions logs ps now name).1 = true) := by
  refine ⟨?_, ?_, ?_⟩
  · intro hrun hpid
    unfold ProcessManager.stop_process
    rw [hrun]
    cases hid : ProcessManager.get_latest_execution_id logs name with
    | none => rfl
    | some id =>
      simp [hpid id hid]
  · intro id pid hrun hid hpidf hps
    unfold ProcessManager.stop_process
    rw [hrun, hid]
    simp [hpidf, hps]
  · intro e pid hrun hproc hpid hps
    have hst : e.status = ExecStatus.running := by
      unfold ProcessManager.get_running_execution at hrun
      cases hl : List.lookup name executions with
      | none => rw [hl] at hrun; cases hrun
      | some l =>
        rw [hl] at hrun
        have := List.find?_some hrun
        simpa using this
    unfold ProcessManager.stop_process
    rw [hrun]
    simp [ProcessExecution.stop, hproc, hst, hpid, hps]

/-- Witness for C4: empty state gives false; a durable pid file whose pid
is gone gives true. -/
theorem C4_witness :
    (ProcessManager.stop_process [] [] (fun _ => PsOutcome.noSuchProcess)
        t1 "job").1 = false ∧
    (ProcessManager.stop_process [] runJob.2.2
        (fun _ => PsOutcome.noSuchProcess) t1 "job").1 = true :=
  ⟨(C4_stop_semantics [] [] (fun _ => PsOutcome.noSuchProcess) t1 "job").1
      rfl (fun id h => by cases h),
   (C4_stop_semantics [] runJob.2.2 (fun _ => PsOutcome.noSuchProcess) t1
      "job").2.1 t0.execIdString 4242 rfl (by decide) (by decide) rfl⟩

/-- Claim C2 is refuted by the code: run("job", args=["--fast"]) does
persist the args file (first conjunct), and the in memory record reports
the arguments (second conjunct), but the record rebuilt purely from
durable artifacts by a fresh instance carries no args key at all (third
conjunct: the args file is written yet never read back), so the two
records differ in shape (fourth conjunct).  This contradicts both the
spec scenario and the comment at manager.py line 89, which says the args
file exists for cross request status tracking. -/
theorem C2_args_lost_in_reconstruction :
    (artifactFor runJob.2.2 "job" t0.execIdString).argsFile =
      some ["--fast"] ∧
    (ProcessManager.get_process_status regJob runJob.2.1 runJob.2.2
        (fun _ => false) "job").latest_execution.map (fun i => i.args) =
      some (some ["--fast"]) ∧
    (ProcessManager.get_process_status regJob [] runJob.2.2
        (fun _ => false) "job").latest_execution.map (fun i => i.args) =
      some none ∧
    (ProcessManager.get_process_status regJob runJob.2.1 runJob.2.2
        (fun _ => false) "job").latest_execution ≠
      (ProcessManager.get_process_status regJob [] runJob.2.2
        (fun _ => false) "job").latest_execution := by
  refine ⟨by decide, by decide, by decide, by decide⟩

/-- Counterexample to claim C3 as stated, in two parts.  First, a freshly
constructed execution whose spawn fails reaches the terminal status
failed without ever having been in status running (the trace of statuses
is pending, failed), so it is not true that every execution reaching a
terminal status was previously running.  Second, after a successful start
and a graceful explicit stop, the monitor body still runs when it
observes the dead child and overwrites the status from the exit code
(manager.py line 122 checks nothing), so the trace moves on from the
terminal status stopped to failed, leaving the claimed chain a second
time. -/
theorem C3_counterexample :
    (eJob.status = ExecStatus.pending ∧
     (execStatusTrace eJob [ExecOp.opStart none t1]).getLast? =
       some ExecStatus.failed ∧
     isTerminal ExecStatus.failed = true ∧
     ExecStatus.running ∉ execStatusTrace eJob [ExecOp.opStart none t1]) ∧
    execStatusTrace eJob [ExecOp.opStart (some 77) t1,
        ExecOp.opStop (fun _ => PsOutcome.graceful) t1,
        ExecOp.opMonitor (fun _ => some (-15)) 3 t1] =
      [ExecStatus.pending, ExecStatus.running, ExecStatus.stopped,
       ExecStatus.failed] := by
  refine ⟨⟨rfl, by decide, rfl, by decide⟩, by decide⟩

/-- Claim C3 amended: under the call discipline of the manager (start is
called once on a pending record; the monitor body runs once the child
exits, on a record that is running, or stopped when an explicit stop
intervened), every status change follows pending to running, pending to
failed (failed spawn), running to a terminal status, or stopped to
completed or failed (the monitor overwrite after a stop), and only the
monitoring task or a stop ever moves a status away from running. -/
theorem C3_amended_status_transitions (e : ExecutionRec) (ops : List ExecOp)
    (h : disciplined e ops = true) : transOk e ops := by
  induction ops generalizing e with
  | nil => trivial
  | cons op ops ih =>
    unfold disciplined at h
    rw [Bool.and_eq_true] at h
    obtain ⟨hg, hrest⟩ := h
    refine ⟨?_, ?_, ih _ hrest⟩
    · cases op with
      | opStart spawn now =>
        have hp : e.status = ExecStatus.pending := by simpa using hg
        cases spawn with
        | some pid => simp [applyOp, ProcessExecution.start, hp, statusEdge]
        | none => simp [applyOp, ProcessExecution.start, hp, statusEdge]
      | opMonitor polls fuel now =>
        have hr : e.status = ExecStatus.running ∨
            e.status = ExecStatus.stopped := by simpa using hg
        simp only [applyOp, ProcessExecution.monitor]
        cases hp : pollLoop polls fuel 0 with
        | none => simp [hp]
        | some c =>
          rcases hr with hr | hr
          · by_cases c0 : c = 0 <;> simp [c0, statusEdge, hr]
          · by_cases c0 : c = 0 <;> simp [c0, statusEdge, hr]
      | opStop ps now =>
        simp only [applyOp, ProcessExecution.stop]
        by_cases hc : e.hasProcess = true ∧ e.status = ExecStatus.running
        · rw [if_pos hc]
          cases hp2 : e.pid with
          | none => simp
          | some p =>
            cases hps : ps p <;> simp [hps, statusEdge, hc.2]
        · rw [if_neg hc]
          simp
    · cases op with
      | opStart spawn now =>
        intro hr _
        have hp : e.status = ExecStatus.pending := by simpa using hg
        rw [hp] at hr
        cases hr
      | opMonitor polls fuel now => intro _ _; exact trivial
      | opStop ps now => intro _ _; exact trivial

/-- Witness for C3 amended: a disciplined run of start, an explicit
graceful stop, and the late monitor body overwriting the stopped status,
from a pending record. -/
theorem C3_witness :
    disciplined eJob [ExecOp.opStart (some 77) t1,
      ExecOp.opStop (fun _ => PsOutcome.graceful) t1,
      ExecOp.opMonitor (fun _ => some (-15)) 3 t1] = true ∧
    transOk eJob [ExecOp.opStart (some 77) t1,
      ExecOp.opStop (fun _ => PsOutcome.graceful) t1,
      ExecOp.opMonitor (fun _ => some (-15)) 3 t1] :=
  ⟨by decide,
   C3_amended_status_transitions eJob
     [ExecOp.opStart (some 77) t1,
      ExecOp.opStop (fun _ => PsOutcome.graceful) t1,
      ExecOp.opMonitor (fun _ => some (-15)) 3 t1] (by decide)⟩

/-- One scheduler step either leaves the triggered list alone or appends
the name of its process, and in the latter case that process is
enabled. -/
theorem checkStep_triggered (executions : ExecHistories)
    (cronNext : String → Timestamp → Option Timestamp) (now : Timestamp)
    (acc : List String × List (String × Timestamp)) (p : ProcessDef) :
    (Scheduler.checkStep executions cronNext now acc p).1 = acc.1 ∨
    ((Scheduler.checkStep executions cronNext now acc p).1 =
        acc.1 ++ [p.name] ∧ p.enabled = true) := by
  rcases hce : p.cron_expr with _ | expr
  · simp [Scheduler.checkStep, hce]
  · simp only [Scheduler.checkStep, hce]
    by_cases h1 : expr = ""
    · simp [h1]
    · rw [if_neg h1]
      by_cases h2 : p.enabled
      · simp only [h2, Bool.not_true, Bool.false_eq_true, if_false]
        by_cases h3 :
            (ProcessManager.get_running_execution executions p.name).isSome
        · simp [h3]
        · simp only [h3, if_false]
          cases hl : List.lookup p.name acc.2 with
          | none =>
            cases hcn : cronNext expr now with
            | none => simp
            | some nxt =>
              by_cases h4 : nxt.chronLe now
              · simp only [h4, if_true]
                cases cronNext expr now with
                | none => exact Or.inr ⟨rfl, by simp [h2]⟩
                | some nxt2 => exact Or.inr ⟨rfl, by simp [h2]⟩
              · simp [h4]
          | some nxt =>
            by_cases h4 : nxt.chronLe now
            · simp only [h4, if_true]
              cases cronNext expr now with
              | none => exact Or.inr ⟨rfl, by simp [h2]⟩
              | some nxt2 => exact Or.inr ⟨rfl, by simp [h2]⟩
            · simp [h4]
      · have h2f : p.enabled = false := by
          revert h2; cases p.enabled <;> simp
        simp [h2f]

/-- Folding the scheduler step over processes never introduces the name of
a process all of whose registry entries are disabled. -/
theorem check_and_run_never_disabled (executions : ExecHistories)
    (cronNext : String → Timestamp → Option Timestamp) (now : Timestamp)
    (procs : List ProcessDef) (n : String) :
    ∀ acc, (∀ p ∈ procs, p.name = n → p.enabled = false) → n ∉ acc.1 →
      n ∉ (procs.foldl (Scheduler.checkStep executions cronNext now) acc).1 := by
  induction procs with
  | nil => intro acc _ h; exact h
  | cons p rest ih =>
    intro acc hdis hn
    simp only [List.foldl_cons]
    apply ih _ (fun q hq hq2 => hdis q (List.mem_cons_of_mem _ hq) hq2)
    rcases checkStep_triggered executions cronNext now acc p with h | ⟨h, hen⟩
    · rw [h]; exact hn
    · rw [h]
      intro hmem
      rcases List.mem_append.mp hmem with h1 | h1
      · exact hn h1
      · have hnp : n = p.name := by simpa using h1
        have := hdis p (List.mem_cons_self p rest) hnp.symm
        rw [hen] at this
        cases this

/-- A process whose cron expression always makes croniter raise, and which
has no cached next run time, contributes nothing to the scheduler step. -/
theorem checkStep_malformed (executions : ExecHistories)
    (cronNext : String → Timestamp → Option Timestamp) (now : Timestamp)
    (st : List (String × Timestamp)) (p : ProcessDef)
    (hmal : ∀ e, p.cron_expr = some e → cronNext e now = none)
    (hcache : List.lookup p.name st = none) :
    Scheduler.checkStep executions cronNext now ([], st) p = ([], st) := by
  rcases hce : p.cron_expr with _ | expr
  · simp [Scheduler.checkStep, hce]
  · simp only [Scheduler.checkStep, hce]
    by_cases h1 : expr = ""
    · simp [h1]
    · rw [if_neg h1]
      by_cases h2 : p.enabled
      · simp only [h2, Bool.not_true, Bool.false_eq_true, if_false]
        by_cases h3 :
            (ProcessManager.get_running_execution executions p.name).isSome
        · simp [h3]
        · simp only [h3, if_false]
          simp [hcache, hmal expr hce]
      · have h2f : p.enabled = false := by
          revert h2; cases p.enabled <;> simp
        simp [h2f]

/-- Claim C9: in every scheduler iteration a disabled definition is never
handed to ProcessManager.run_process, whatever the elapsed time, cron
expression or cached next due timestamp; and a process whose cron
expression raises (malformed) is skipped without preventing the remaining
processes of that iteration from being evaluated exactly as they would
have been without it. -/
theorem C9_scheduler_isolation (executions : ExecHistories)
    (cronNext : String → Timestamp → Option Timestamp) (now : Timestamp) :
    (∀ procs st n, (∀ p ∈ procs, p.name = n → p.enabled = false) →
      n ∉ (Scheduler.check_and_run executions cronNext now procs st).1) ∧
    (∀ p procs st, (∀ e, p.cron_expr = some e → cronNext e now = none) →
      List.lookup p.name st = none →
      Scheduler.check_and_run executions cronNext now (p :: procs) st =
        Scheduler.check_and_run executions cronNext now procs st) := by
  constructor
  · intro procs st n h
    exact check_and_run_never_disabled executions cronNext now procs n
      ([], st) h (by simp)
  · intro p procs st hmal hcache
    unfold Scheduler.check_and_run
    simp only [List.foldl_cons]
    rw [checkStep_malformed executions cronNext now st p hmal hcache]

/-- Witness for C9: a disabled definition with a cron expression is never
triggered, and a malformed leading entry leaves the iteration over the
rest untouched. -/
theorem C9_witness :
    ("night" ∉ (Scheduler.check_and_run [] (fun _ _ => none) t1
        [{ name := "night", script_path := "/opt/night.sh",
           cron_expr := some "0 0 * * *", description := "",
           created_at := "", enabled := false, owner_uid := 1000 }]
        []).1) ∧
    Scheduler.check_and_run [] (fun _ _ => none) t1
        ({ name := "bad", script_path := "/opt/bad.sh",
           cron_expr := some "not a cron", description := "",
           created_at := "", enabled := true, owner_uid := 1000 } ::
          [{ pdJob with cron_expr := some "* * * * *" }]) [] =
      Scheduler.check_and_run [] (fun _ _ => none) t1
        [{ pdJob with cron_expr := some "* * * * *" }] [] :=
  ⟨(C9_scheduler_isolation [] (fun _ _ => none) t1).1
      [{ name := "night", script_path := "/opt/night.sh",
         cron_expr := some "0 0 * * *", description := "",
         created_at := "", enabled := false, owner_uid := 1000 }] []
      "night" (by decide),
   (C9_scheduler_isolation [] (fun _ _ => none) t1).2
      { name := "bad", script_path := "/opt/bad.sh",
        cron_expr := some "not a cron", description := "",
        created_at := "", enabled := true, owner_uid := 1000 }
      [{ pdJob with cron_expr := some "* * * * *" }] []
      (fun _ _ => rfl) rfl⟩

/-- The code point lexicographic order on strings is transitive. -/
theorem strLt_trans {a b c : String} (h1 : strLt a b) (h2 : strLt b c) :
    strLt a c :=
  @IsTrans.trans (List Char) (List.Lex (· < ·)) _ a.toList b.toList
    c.toList h1 h2

/-- The code point lexicographic order on strings is total. -/
theorem strLt_total (a b : String) : strLt a b ∨ a = b ∨ strLt b a := by
  rcases @IsTrichotomous.trichotomous (List Char) (List.Lex (· < ·)) _
      a.toList b.toList with h | h | h
  · exact Or.inl h
  · refine Or.inr (Or.inl ?_)
    cases a
    cases b
    exact congrArg String.mk (by simpa [String.toList] using h)
  · exact Or.inr (Or.inr h)

/-- The result of the running maximum is one of the inputs or the starting
accumulator. -/
theorem foldl_latestStep_mem (ids : List String) :
    ∀ (acc : Option String) (m : String),
      ids.foldl latestStep acc = some m → acc = some m ∨ m ∈ ids := by
  induction ids with
  | nil => intro acc m h; exact Or.inl h
  | cons i ids ih =>
    intro acc m h
    rcases ih (latestStep acc i) m h with h' | h'
    · cases acc with
      | none =>
        cases h'
        exact Or.inr (List.mem_cons_self i ids)
      | some a =>
        simp only [latestStep] at h'
        by_cases hlt : strLt a i
        · rw [if_pos hlt] at h'
          cases h'
          exact Or.inr (List.mem_cons_self i ids)
        · rw [if_neg hlt] at h'
          exact Or.inl h'
    · exact Or.inr (List.mem_cons_of_mem i h')

/-- The result of the running maximum bounds the accumulator and every
input from above in the lexicographic order. -/
theorem foldl_latestStep_ge (ids : List String) :
    ∀ (acc : Option String) (m : String),
      ids.foldl latestStep acc = some m →
      (∀ a, acc = some a → strLe a m) ∧ ∀ x ∈ ids, strLe x m := by
  induction ids with
  | nil =>
    intro acc m h
    refine ⟨?_, by simp⟩
    intro a ha
    rw [ha] at h
    cases h
    exact Or.inr rfl
  | cons i ids ih =>
    intro acc m h
    have ihm := ih (latestStep acc i) m h
    have hstep : ∀ b, latestStep acc i = some b → strLe b m := by
      intro b hb
      exact ihm.1 b hb
    have hile : strLe i m := by
      cases acc with
      | none => exact hstep i rfl
      | some a =>
        by_cases hlt : strLt a i
        · exact hstep i (by simp only [latestStep]; rw [if_pos hlt])
        · have ham := hstep a (by simp only [latestStep]; rw [if_neg hlt])
          rcases strLt_total i a with h1 | h1 | h1
          · rcases ham with h2 | h2
            · exact Or.inl (strLt_trans h1 h2)
            · subst h2; exact Or.inl h1
          · subst h1; exact ham
          · exact absurd h1 hlt
    constructor
    · intro a ha
      subst ha
      by_cases hlt : strLt a i
      · have := hstep i (by simp only [latestStep]; rw [if_pos hlt])
        rcases this with h2 | h2
        · exact Or.inl (strLt_trans hlt h2)
        · subst h2; exact Or.inl hlt
      · exact hstep a (by simp only [latestStep]; rw [if_neg hlt])
    · intro x hx
      rcases List.mem_cons.mp hx with h1 | h1
      · subst h1; exact hile
      · exact ihm.2 x h1

/-- The latest execution id is the running maximum over the ids owning a
stdout log. -/
theorem get_latest_execution_id_eq (logs : LogsState) (name : String) :
    ProcessManager.get_latest_execution_id logs name =
      latestOf (stdoutIds logs name) := by
  unfold ProcessManager.get_latest_execution_id stdoutIds
  cases List.lookup name logs with
  | none => rfl
  | some entries => rfl

/-- Normal form of get_process_status when the in memory history is empty
and a latest durable execution id exists. -/
theorem get_process_status_fs (reg : Registry) (executions : ExecHistories)
    (logs : LogsState) (alive : Nat → Bool) (name id : String)
    (hmem : (List.lookup name executions).getD [] = [])
    (hid : ProcessManager.get_latest_execution_id logs name = some id) :
    ProcessManager.get_process_status reg executions logs alive name =
      { name := name,
        latest_execution := some
          { execution_id := id, name := name, pid := none,
            status :=
              if (match (artifactFor logs name id).pidFile with
                  | some (some pid) => alive pid
                  | some none => false
                  | none => false) then ExecStatus.running
              else ExecStatus.completed,
            args := none, start_time := parseStartTime id,
            end_time := none,
            exit_code :=
              match (artifactFor logs name id).exitcodeFile with
              | some (some c) => some c
              | some none => none
              | none => none,
            duration := none },
        total_executions := 0,
        running :=
          match (artifactFor logs name id).pidFile with
          | some (some pid) => alive pid
          | some none => false
          | none => false } := by
  unfold ProcessManager.get_process_status
  rw [hmem, hid]
  simp only [List.getLast?_nil, List.length_nil, List.any_nil]
  cases hpf : (artifactFor logs name id).pidFile with
  | none => rfl
  | some po =>
    cases po with
    | none => rfl
    | some pid =>
      by_cases ha : alive pid
      · simp [ha]
      · simp [ha]

/-- Claim C1: with no in memory history, the status query locates the
latest execution id as the lexicographic maximum over the ids owning
durable stdout logs; with a pid file holding a pid that answers the
liveness probe the reported status is running, and in every other case
(no pid file, unreadable pid file, dead pid) it is completed; the exit
code is read from the exitcode file when it exists and readable and left
unknown when the file is absent. -/
theorem C1_status_reconciliation (reg : Registry)
    (executions : ExecHistories) (logs : LogsState) (alive : Nat → Bool)
    (name : String)
    (hmem : (List.lookup name executions).getD [] = []) :
    (∀ id, ProcessManager.get_latest_execution_id logs name = some id →
      id ∈ stdoutIds logs name ∧
      (∀ x ∈ stdoutIds logs name, strLe x id) ∧
      (ProcessManager.get_process_status reg executions logs alive
          name).latest_execution.map (fun i => i.execution_id) = some id ∧
      (∀ pid, (artifactFor logs name id).pidFile = some (some pid) →
        (alive pid = true →
          (ProcessManager.get_process_status reg executions logs alive
              name).latest_execution.map (fun i => i.status) =
            some ExecStatus.running ∧
          (ProcessManager.get_process_status reg executions logs alive
              name).running = true) ∧
        (alive pid = false →
          (ProcessManager.get_process_status reg executions logs alive
              name).latest_execution.map (fun i => i.status) =
            some ExecStatus.completed ∧
          (ProcessManager.get_process_status reg executions logs alive
              name).running = false)) ∧
      ((artifactFor logs name id).pidFile = none →
        (ProcessManager.get_process_status reg executions logs alive
            name).latest_execution.map (fun i => i.status) =
          some ExecStatus.completed ∧
        (ProcessManager.get_process_status reg executions logs alive
            name).running = false) ∧
      ((artifactFor logs name id).pidFile = some none →
        (ProcessManager.get_process_status reg executions logs alive
            name).latest_execution.map (fun i => i.status) =
          some ExecStatus.completed ∧
        (ProcessManager.get_process_status reg executions logs alive
            name).running = false) ∧
      (∀ c, (artifactFor logs name id).exitcodeFile = some (some c) →
        (ProcessManager.get_process_status reg executions logs alive
            name).latest_execution.map (fun i => i.exit_code) =
          some (some c)) ∧
      ((artifactFor logs name id).exitcodeFile = none →
        (ProcessManager.get_process_status reg executions logs alive
            name).latest_execution.map (fun i => i.exit_code) =
          some none)) ∧
    (ProcessManager.get_latest_execution_id logs name = none →
      (ProcessManager.get_process_status reg executions logs alive
          name).latest_execution = none ∧
      (ProcessManager.get_process_status reg executions logs alive
          name).running = false) := by
  constructor
  · intro id hid
    have hmax := hid
    rw [get_latest_execution_id_eq] at hmax
    have hmem1 := foldl_latestStep_mem (stdoutIds logs name) none id hmax
    have hge := (foldl_latestStep_ge (stdoutIds logs name) none id hmax).2
    refine ⟨?_, hge, ?_, ?_, ?_, ?_, ?_, ?_⟩
    · rcases hmem1 with h | h
      · cases h
      · exact h
    · rw [get_process_status_fs reg executions logs alive name id hmem hid]
      rfl
    · intro pid hpf
      rw [get_process_status_fs reg executions logs alive name id hmem hid]
      constructor
      · intro hal
        simp [hpf, hal]
      · intro hal
        simp [hpf, hal]
    · intro hpf
      rw [get_process_status_fs reg executions logs alive name id hmem hid]
      simp [hpf]
    · intro hpf
      rw [get_process_status_fs reg executions logs alive name id hmem hid]
      simp [hpf]
    · intro c hec
      rw [get_process_status_fs reg executions logs alive name id hmem hid]
      simp [hec]
    · intro hec
      rw [get_process_status_fs reg executions logs alive name id hmem hid]
      simp [hec]
  · intro hid
    unfold ProcessManager.get_process_status
    rw [hmem, hid]
    simp

/-- Witness for C1: two durable executions of the job; the later id wins,
its live pid makes the status running, and its missing exitcode file
leaves the exit code unknown. -/
theorem C1_witness :
    Timestamp.execIdString t0 ∈ stdoutIds logsW "job" ∧
    (ProcessManager.get_process_status regJob [] logsW (fun _ => true)
        "job").latest_execution.map (fun i => i.execution_id) =
      some (Timestamp.execIdString t0) ∧
    (ProcessManager.get_process_status regJob [] logsW (fun _ => true)
        "job").latest_execution.map (fun i => i.status) =
      some ExecStatus.running ∧
    (ProcessManager.get_process_status regJob [] logsW (fun _ => true)
        "job").running = true ∧
    (ProcessManager.get_process_status regJob [] logsW (fun _ => true)
        "job").latest_execution.map (fun i => i.exit_code) = some none :=
  have h := (C1_status_reconciliation regJob [] logsW (fun _ => true)
      "job" rfl).1 (Timestamp.execIdString t0) (by decide)
  have hpid := (h.2.2.2.1 4242 (by decide)).1 rfl
  ⟨h.1, h.2.2.1, hpid.1, hpid.2, h.2.2.2.2.2.2.2 (by decide)⟩

/-- A fixed width digit list has its stated width. -/
theorem padDigits_length : ∀ (w n : Nat), (padDigits w n).length = w := by
  intro w
  induction w with
  | zero => intro n; rfl
  | succ w ih => intro n; simp [padDigits, ih]

/-- All entries of a fixed width digit list of a bounded number are
decimal digits. -/
theorem padDigits_lt_ten : ∀ (w n : Nat), n < 10 ^ w →
    ∀ x ∈ padDigits w n, x < 10 := by
  intro w
  induction w with
  | zero => intro n hn x hx; simp [padDigits] at hx
  | succ w ih =>
    intro n hn x hx
    unfold padDigits at hx
    rcases List.mem_cons.mp hx with h | h
    · subst h
      exact Nat.div_lt_of_lt_mul (by rw [← Nat.pow_succ]; exact hn)
    · exact ih _ (Nat.mod_lt _ (Nat.pow_pos (by norm_num))) x h

/-- Fixed width digit lists compare lexicographically as the numbers they
encode. -/
theorem padDigits_mono : ∀ (w m n : Nat), m < n → n < 10 ^ w →
    List.Lex (· < ·) (padDigits w m) (padDigits w n) := by
  intro w
  induction w with
  | zero =>
    intro m n hmn hn
    simp at hn
    omega
  | succ w ih =>
    intro m n hmn hn
    unfold padDigits
    have hdle : m / 10 ^ w ≤ n / 10 ^ w :=
      Nat.div_le_div_right (Nat.le_of_lt hmn)
    rcases Nat.lt_or_eq_of_le hdle with hd | hd
    · exact List.Lex.rel hd
    · rw [hd]
      have hmod : m % 10 ^ w < n % 10 ^ w := by
        have h1 := Nat.div_add_mod m (10 ^ w)
        have h2 := Nat.div_add_mod n (10 ^ w)
        rw [hd] at h1
        set k := 10 ^ w * (n / 10 ^ w) with hk
        omega
      exact List.Lex.cons (ih _ _ hmod (Nat.mod_lt _ (Nat.pow_pos (by norm_num))))

/-- The digit to character map of strftime is strictly monotone on
decimal digits. -/
theorem digitChar_lt_digitChar {a b : Nat} (ha : a < 10) (hb : b < 10)
    (h : a < b) : Nat.digitChar a < Nat.digitChar b := by
  have key : ∀ x y : Fin 10, x.val < y.val →
      Nat.digitChar x.val < Nat.digitChar y.val := by decide
  exact key ⟨a, ha⟩ ⟨b, hb⟩ h

/-- Mapping digits to characters preserves the lexicographic order. -/
theorem lex_map_digitChar {l1 l2 : List Nat}
    (h : List.Lex (· < ·) l1 l2) :
    (∀ x ∈ l1, x < 10) → (∀ x ∈ l2, x < 10) →
    List.Lex (· < ·) (l1.map Nat.digitChar) (l2.map Nat.digitChar) := by
  induction h with
  | nil =>
    intro _ _
    simp only [List.map_nil, List.map_cons]
    exact List.Lex.nil
  | rel hab =>
    intro h1 h2
    simp only [List.map_cons]
    exact List.Lex.rel (digitChar_lt_digitChar
      (h1 _ (List.mem_cons_self _ _)) (h2 _ (List.mem_cons_self _ _)) hab)
  | cons h ih =>
    intro h1 h2
    simp only [List.map_cons]
    exact List.Lex.cons (ih
      (fun x hx => h1 x (List.mem_cons_of_mem _ hx))
      (fun x hx => h2 x (List.mem_cons_of_mem _ hx)))

/-- A lexicographic comparison of two equal length leading blocks decides
the comparison of any continuations. -/
theorem lex_append_of_eq_length {l1 l2 : List Char}
    (h : List.Lex (· < ·) l1 l2) :
    l1.length = l2.length → ∀ (t1 t2 : List Char),
    List.Lex (· < ·) (l1 ++ t1) (l2 ++ t2) := by
  induction h with
  | nil =>
    intro hlen
    simp at hlen
  | rel hab =>
    intro _ t1 t2
    simp only [List.cons_append]
    exact List.Lex.rel hab
  | cons h ih =>
    intro hlen t1 t2
    simp only [List.cons_append]
    exact List.Lex.cons (ih (by simpa using hlen) t1 t2)

/-- The character list of an execution id, block by block. -/
theorem execIdString_toList (t : Timestamp) :
    (Timestamp.execIdString t).toList =
      (padDigits 4 t.year).map Nat.digitChar ++
      ((padDigits 2 t.month).map Nat.digitChar ++
      ((padDigits 2 t.day).map Nat.digitChar ++
      (((['_'] : List Char) ++
      ((padDigits 2 t.hour).map Nat.digitChar ++
      ((padDigits 2 t.minute).map Nat.digitChar ++
      ((padDigits 2 t.second).map Nat.digitChar ++
      ((['_'] : List Char) ++
      (padDigits 6 t.micro).map Nat.digitChar)))))))) := by
  simp [Timestamp.execIdString, padStr, String.toList, String.data_append,
    List.append_assoc]

/-- Chronologically later wall clock readings give lexicographically
greater execution ids (within the fixed width regime). -/
theorem execIdString_mono (t1 t2 : Timestamp) (v1 : t1.Valid)
    (v2 : t2.Valid) (h : t1.chronLt t2) :
    strLt t1.execIdString t2.execIdString := by
  unfold Timestamp.Valid at v1 v2
  obtain ⟨y1lo, y1hi, mo1lo, mo1hi, d1lo, d1hi, h1hi, mi1hi, s1hi, mic1hi⟩ := v1
  obtain ⟨y2lo, y2hi, mo2lo, mo2hi, d2lo, d2hi, h2hi, mi2hi, s2hi, mic2hi⟩ := v2
  have blockLt : ∀ (w x y : Nat), x < y → y < 10 ^ w →
      ∀ (r1 r2 : List Char),
      List.Lex (· < ·) ((padDigits w x).map Nat.digitChar ++ r1)
        ((padDigits w y).map Nat.digitChar ++ r2) := by
    intro w x y hxy hy r1 r2
    exact lex_append_of_eq_length
      (lex_map_digitChar (padDigits_mono w x y hxy hy)
        (padDigits_lt_ten w x (lt_trans hxy hy))
        (padDigits_lt_ten w y hy))
      (by simp [padDigits_length]) r1 r2
  unfold strLt
  rw [execIdString_toList t1, execIdString_toList t2]
  rcases h with hy | ⟨hy, hmo | ⟨hmo, hd | ⟨hd, hh | ⟨hh, hmi | ⟨hmi, hs | ⟨hs, hmic⟩⟩⟩⟩⟩⟩
  · exact blockLt 4 _ _ hy (by norm_num; omega) _ _
  · rw [hy]
    refine List.Lex.append_left _ ?_ _
    exact blockLt 2 _ _ hmo (by norm_num; omega) _ _
  · rw [hy, hmo]
    refine List.Lex.append_left _ ?_ _
    refine List.Lex.append_left _ ?_ _
    exact blockLt 2 _ _ hd (by norm_num; omega) _ _
  · rw [hy, hmo, hd]
    refine List.Lex.append_left _ ?_ _
    refine List.Lex.append_left _ ?_ _
    refine List.Lex.append_left _ ?_ _
    refine List.Lex.append_left _ ?_ _
    exact blockLt 2 _ _ hh (by norm_num; omega) _ _
  · rw [hy, hmo, hd, hh]
    refine List.Lex.append_left _ ?_ _
    refine List.Lex.append_left _ ?_ _
    refine List.Lex.append_left _ ?_ _
    refine List.Lex.append_left _ ?_ _
    refine List.Lex.append_left _ ?_ _
    exact blockLt 2 _ _ hmi (by norm_num; omega) _ _
  · rw [hy, hmo, hd, hh, hmi]
    refine List.Lex.append_left _ ?_ _
    refine List.Lex.append_left _ ?_ _
    refine List.Lex.append_left _ ?_ _
    refine List.Lex.append_left _ ?_ _
    refine List.Lex.append_left _ ?_ _
    refine List.Lex.append_left _ ?_ _
    exact blockLt 2 _ _ hs (by norm_num; omega) _ _
  · rw [hy, hmo, hd, hh, hmi, hs]
    refine List.Lex.append_left _ ?_ _
    refine List.Lex.append_left _ ?_ _
    refine List.Lex.append_left _ ?_ _
    refine List.Lex.append_left _ ?_ _
    refine List.Lex.append_left _ ?_ _
    refine List.Lex.append_left _ ?_ _
    refine List.Lex.append_left _ ?_ _
    refine List.Lex.append_left _ ?_ _
    exact lex_map_digitChar (padDigits_mono 6 _ _ hmic (by norm_num; omega))
      (padDigits_lt_ten 6 _ (by norm_num; omega))
      (padDigits_lt_ten 6 _ (by norm_num; omega))

/-- Chronological order on wall clock readings is trichotomous. -/
theorem chronLt_trichotomy (t1 t2 : Timestamp) :
    t1.chronLt t2 ∨ t1 = t2 ∨ t2.chronLt t1 := by
  cases t1
  cases t2
  unfold Timestamp.chronLt
  simp only [Timestamp.mk.injEq]
  omega

/-- The lexicographic order on strings is asymmetric. -/
theorem strLt_asymm {a b : String} (h : strLt a b) : ¬ strLt b a :=
  fun h2 =>
    (@IsAsymm.asymm (List Char) (List.Lex (· < ·)) _ a.toList b.toList h h2)

/-- Claim C8: execution ids produced by constructing executions at
successive wall clock readings are strictly increasing in lexicographic
string order exactly when the readings are chronologically increasing
(fixed width timestamp encoding), so lexicographic order on ids coincides
with chronological order of the executions. -/
theorem C8_execution_ids_chronological (name1 sp1 : String) (uid1 : Nat)
    (args1 : Option (List String)) (name2 sp2 : String) (uid2 : Nat)
    (args2 : Option (List String)) (t1 t2 : Timestamp)
    (v1 : t1.Valid) (v2 : t2.Valid) :
    strLt (ProcessExecution.init name1 sp1 uid1 args1 t1).execution_id
      (ProcessExecution.init name2 sp2 uid2 args2 t2).execution_id ↔
    t1.chronLt t2 := by
  show strLt t1.execIdString t2.execIdString ↔ t1.chronLt t2
  constructor
  · intro hlt
    rcases chronLt_trichotomy t1 t2 with h | h | h
    · exact h
    · subst h
      exact absurd hlt (strLt_asymm hlt)
    · exact absurd hlt (strLt_asymm (execIdString_mono t2 t1 v2 v1 h))
  · exact execIdString_mono t1 t2 v1 v2

/-- Witness for C8 at two concrete readings one second apart. -/
theorem C8_witness :
    strLt (ProcessExecution.init "job" "/opt/job.sh" 1000 none t0).execution_id
      (ProcessExecution.init "job" "/opt/job.sh" 1000 none t1).execution_id ↔
    t0.chronLt t1 :=
  C8_execution_ids_chronological "job" "/opt/job.sh" 1000 none
    "job" "/opt/job.sh" 1000 none t0 t1 (by decide) (by decide)
